import Mathlib

/-!
Shallow embedding of `alframework/tools/database.py` (the ALF storage
engine): the ragged-concatenation helper, the shape-validation helper,
the flag-exclusion helper, the `Database` class state with its insertion,
point-lookup, reduction and chunk-loading operations, and the
`ChunkLoader` window splitting.

Modelling conventions:
* numpy arrays are modelled with an explicit shape (`List Nat`) and entries
  over `Int` (every stored numeric in the claims is integral; dtype casts
  are value-preserving on this domain and are recorded by `castTo`);
* the zarr backend's hierarchical namespace is modelled as association
  lists keyed by the same path components the source builds;
* `np.random.choice(valid, size, replace=False)` is modelled by passing the
  drawn positions explicitly, guarded by the contract the call guarantees
  (right length, drawn from `valid`, no duplicates);
* Python exceptions leave already-performed zarr writes in place, so every
  mutating operation returns `Option Err × State`: the error (if any)
  together with the state holding all writes performed before the raise.
-/

namespace ALF

set_option maxHeartbeats 2000000
set_option maxRecDepth 4000

/-- Numeric dtype tag of a stored array (integer or floating point). -/
inductive DType where
  | int
  | float
deriving DecidableEq

/-- One record's value for one property: a numpy array with its full shape,
dtype, and entries addressed by a multi-index. -/
structure Arr where
  shape : List Nat
  dtype : DType
  data : List Nat → Int

/-- Default array used only as the `Option.getD` fallback. -/
def defaultArr : Arr := ⟨[], DType.int, fun _ => 0⟩

/-- A numpy array split as the source treats it: leading (record-count) axis
`lead` and trailing shape `trail` (`a.shape[0]` and `a.shape[1:]`). -/
structure NDArray where
  dtype : DType
  lead : Nat
  trail : List Nat
  data : Nat → List Nat → Int

/-- Dtype cast applied by a numpy assignment into an array of dtype `d`.
On the integral value domain of this model every cast is value-preserving. -/
def castTo (d : DType) (v : Int) : Int := v

/-- Bounds check of a multi-index against a trailing shape: same rank and
componentwise strictly below. -/
def withinB : List Nat → List Nat → Bool
  | [], [] => true
  | i :: is, d :: ds => decide (i < d) && withinB is ds
  | _, _ => false

/-- `np.zeros((lead, *trail), dtype=d)`. -/
def zerosArray (d : DType) (lead : Nat) (trail : List Nat) : NDArray :=
  ⟨d, lead, trail, fun _ _ => 0⟩

/-- `result[pos:pos+a.shape[0], :d1, :d2, ...] = a`: writes `a` into the
top-left-aligned region of rows `[pos, pos+a.lead)`, casting values to the
destination dtype, and leaves every other entry of `res` unchanged. -/
def writeRegion (res : NDArray) (pos : Nat) (a : NDArray) : NDArray :=
  { res with data := fun i idx =>
      if pos ≤ i ∧ i < pos + a.lead ∧ withinB idx a.trail = true then
        castTo res.dtype (a.data (i - pos) idx)
      else res.data i idx }

/-- The copy loop of `concatenate_different_arrays`: writes each array of the
list into its row block, advancing `pos` by the leading length each step. -/
def writeAll : List NDArray → Nat → NDArray → NDArray
  | [], _, res => res
  | a :: rest, pos, res => writeAll rest (pos + a.lead) (writeRegion res pos a)

/-- `sum([a.shape[0] for a in array_list])`. -/
def sumLeads (l : List NDArray) : Nat := (l.map (fun a => a.lead)).sum

/-- Number of rows written before block `n` starts. -/
def leadOffset (l : List NDArray) (n : Nat) : Nat :=
  ((l.take n).map (fun a => a.lead)).sum

/-- `np.min(shapes, axis=0)` / `np.max(shapes, axis=0)`: componentwise fold
of `f` over the rows of the shape table, starting from the first row. -/
def compFold (f : Nat → Nat → Nat) (t0 : List Nat) (ts : List (List Nat)) : List Nat :=
  ts.foldl (fun acc t => List.zipWith f acc t) t0

/-- Numpy dtype promotion for `np.concatenate`: integral only if all inputs
are integral. -/
def promote2 : DType → DType → DType
  | DType.int, DType.int => DType.int
  | _, _ => DType.float

/-- Promoted dtype of a nonempty input list. -/
def promoteList (d0 : DType) (ds : List DType) : DType := ds.foldl promote2 d0

/-- `a.reshape(1, *a.shape)`: prepend a unit leading axis. -/
def stackReshape (a : NDArray) : NDArray :=
  ⟨a.dtype, 1, a.lead :: a.trail, fun _ idx =>
    match idx with
    | i :: is => a.data i is
    | [] => 0⟩

/-- `np.concatenate(array_list)` for arrays of a common trailing shape:
rows of each input appear in order in the output, dtype is promoted. -/
def npConcatenate (a0 : NDArray) (rest : List NDArray) : NDArray :=
  writeAll (a0 :: rest) 0
    (zerosArray (promoteList a0.dtype (rest.map (fun a => a.dtype)))
      (sumLeads (a0 :: rest)) a0.trail)

/-- `concatenate_different_arrays(array_list, stack)` from the source:
optionally reshape for stacking, build the shape table (numpy refuses a
ragged table, i.e. inputs of unequal rank), compare the componentwise min
and max of the trailing shapes, and either concatenate directly or allocate
a zero array of the componentwise-max trailing shape with the dtype of the
first input and copy each input into the top-left-aligned region of its
row block. -/
def concatenate_different_arrays (array_list : List NDArray) (stack : Bool) :
    Option NDArray :=
  let arrays := if stack then array_list.map stackReshape else array_list
  match arrays with
  | [] => none
  | a0 :: rest =>
    if ∀ a ∈ a0 :: rest, a.trail.length = a0.trail.length then
      let minS := compFold Nat.min a0.trail (rest.map (fun a => a.trail))
      let maxS := compFold Nat.max a0.trail (rest.map (fun a => a.trail))
      if minS = maxS then
        some (npConcatenate a0 rest)
      else
        some (writeAll (a0 :: rest) 0
          (zerosArray a0.dtype (sumLeads (a0 :: rest)) maxS))
    else none

/-- The `for i, j in zip(shape1, shape2)` loop of `check_dimensions`.
`n_diff` is threaded exactly as in the source: it is initialized to 0,
compared against 1, and never incremented. -/
def check_dimensions_loop (pairs : List (Nat × Nat)) (n_atoms : Nat) (n_diff : Nat) : Bool :=
  match pairs with
  | [] => true
  | (i, j) :: rest =>
    if i ≠ j then
      if n_diff == 1 then false
      else if j ≠ n_atoms then false
      else check_dimensions_loop rest n_atoms n_diff
    else check_dimensions_loop rest n_atoms n_diff

/-- `check_dimensions(template, array, n_atoms)`: ranks must agree, then the
zip loop above runs with `n_diff = 0`. -/
def check_dimensions (template array : List Nat) (n_atoms : Nat) : Bool :=
  if template.length ≠ array.length then false
  else check_dimensions_loop (template.zip array) n_atoms 0

/-- `exclude_values(array, values)`: all positions when `values` is `None`
or empty, else the positions whose entry is in none of `values`. -/
def exclude_values (array : List Int) (values : Option (List Int)) : List Nat :=
  match values with
  | none => List.range array.length
  | some vs =>
    if vs.isEmpty then List.range array.length
    else (List.range array.length).filter (fun i => !(vs.contains (array.getD i 0)))

/-- `f"{n_atoms:03}"`: zero-padded three-digit group key. -/
def pad3 (n : Nat) : String :=
  if n < 10 then "00" ++ toString n
  else if n < 100 then "0" ++ toString n
  else toString n

/-- `int(q)` on a Python float/rational: truncation toward zero. -/
def pyTrunc (q : ℚ) : Int := if 0 ≤ q then q.floor else -((-q).floor)

/-- `n_chunks = len(indices) // chunk_size + int(len(indices) % chunk_size != 0)`. -/
def n_chunks (p w : Nat) : Nat := p / w + (if p % w ≠ 0 then 1 else 0)

/-- `np.arange(1, n_chunks) * chunk_size`: the split borders. -/
def chunk_borders (w n : Nat) : List Nat := (List.range' 1 (n - 1)).map (fun i => i * w)

/-- Helper of `splitAtBorders`: `prev` is the absolute position where the
remaining list starts, so the part ending at border `b` has `b - prev`
elements. -/
def splitBordersAux : List Nat → Nat → List (Nat × Nat) → List (List (Nat × Nat))
  | [], _, l => [l]
  | b :: bs, prev, l => l.take (b - prev) :: splitBordersAux bs b (l.drop (b - prev))

/-- `np.split(l, borders)`: consecutive slices of `l` cut at the given
absolute positions; with no borders the whole list is a single part. -/
def splitAtBorders (l : List (Nat × Nat)) (bs : List Nat) : List (List (Nat × Nat)) :=
  splitBordersAux bs 0 l

/-- `ChunkLoader.__init__`: the snapshot split into `n_chunks` windows. -/
def chunk_indices (l : List (Nat × Nat)) (w : Nat) : List (List (Nat × Nat)) :=
  splitAtBorders l (chunk_borders w (n_chunks l.length w))

/-- Errors raised by the modelled operations. `dimensionMismatch` is the
`assert check_dimensions(...)` failure; `missingProperty` a `KeyError` on a
record dictionary; `keyError` a `KeyError` on the zarr namespace;
`indexError` an out-of-range array access; `backendAppend` the zarr
`append` shape-compatibility failure; `containsGroup` the zarr error on
creating an already-existing group; `invalidDraw` marks a drawn sample that
violates the `np.random.choice(..., replace=False)` contract (unreachable
for genuine draws). -/
inductive Err where
  | dimensionMismatch
  | missingProperty
  | keyError
  | indexError
  | backendAppend
  | containsGroup
  | invalidDraw
deriving DecidableEq

/-- One growable per-group per-property zarr array: fixed trailing shape,
dtype, and one stored value per record of the group. -/
structure GroupArr where
  trail : List Nat
  dtype : DType
  rows : List Arr

/-- A record passed to `add_instance`: the property-name → array mapping
(in dictionary order, without the scalar `global_property` key, which is
modelled separately as the optional `globalProp`). -/
structure Rec where
  props : List (String × Arr)
  globalProp : Option Int

/-- `item[key]` lookup on a record. -/
def Rec.find (r : Rec) (k : String) : Option Arr := r.props.lookup k

/-- `len(value)` on a numpy array: its leading dimension (0 for rank 0). -/
def firstDim : List Nat → Nat
  | [] => 0
  | d :: _ => d

/-- `len(item["species"])`: the record's entity size (0 when absent, but the
source raises `KeyError` first in that case). -/
def recNAtoms (r : Rec) : Nat :=
  match r.find "species" with
  | some a => firstDim a.shape
  | none => 0

/-- The persisted `Database` state: the schema (`property_names` is unset
until the first record or an explicit constructor argument), the
`global/leaf_structure/<property>` templates, the `data/<group>/<property>`
arrays, `global/indices`, `global/global_property` (the flags), the record
counter `db_size`, and `reductions/<name>/<stage>`. -/
structure DBState where
  property_names : Option (List String)
  leaf : List (String × Arr)
  data : List (String × List (String × GroupArr))
  indices : List (Nat × Nat)
  flags : List Int
  db_size : Nat
  reductions : List (String × List (String × List (Nat × Nat)))

/-- A freshly constructed database over an empty directory, with no
explicit `property_names` argument. -/
def emptyDB : DBState := ⟨none, [], [], [], [], 0, []⟩

/-- Replace the arrays of group `g`. -/
def setGroup (d : List (String × List (String × GroupArr))) (g : String)
    (arrs : List (String × GroupArr)) : List (String × List (String × GroupArr)) :=
  d.map (fun p => if p.1 = g then (g, arrs) else p)

/-- Replace one property array inside a group. -/
def setArr (g : List (String × GroupArr)) (k : String) (a : GroupArr) :
    List (String × GroupArr) :=
  g.map (fun p => if p.1 = k then (k, a) else p)

/-- The property loop of `_add_first_element`: for each schema property,
read the record's value (`KeyError` if absent), create its leaf-structure
template and a length-1 group array holding the value. Returns the error
(if any) together with the template and group arrays created so far. -/
def first_element_loop (r : Rec) : List String →
    List (String × Arr) → List (String × GroupArr) →
    Option Err × List (String × Arr) × List (String × GroupArr)
  | [], leafAcc, grpAcc => (none, leafAcc, grpAcc)
  | k :: rest, leafAcc, grpAcc =>
    match r.find k with
    | none => (some Err.missingProperty, leafAcc, grpAcc)
    | some v =>
      first_element_loop r rest (leafAcc ++ [(k, ⟨v.shape, v.dtype, fun _ => 0⟩)])
        (grpAcc ++ [(k, ⟨v.shape, v.dtype, [v]⟩)])

/-- `Database._add_first_element`: read the entity size (`KeyError` if
`species` is absent), create `global/indices = [[n_atoms, 0]]` and
`global/global_property = [global_property or 0]`, create the group, fix
`property_names` (from the record's keys unless already set), run the
property loop, and finally set the record counter to 1. A failure inside
the loop leaves the index, flag and partial template/group writes visible
but the counter still 0, exactly as the source does. -/
def add_first_element (s : DBState) (r : Rec) : Option Err × DBState :=
  match r.find "species" with
  | none => (some Err.missingProperty, s)
  | some sp =>
    let n := firstDim sp.shape
    let gname := pad3 n
    let names := s.property_names.getD (r.props.map (fun p => p.1))
    let s1 : DBState :=
      { s with indices := [(n, 0)], flags := [r.globalProp.getD 0],
               data := s.data ++ [(gname, [])], property_names := some names }
    match first_element_loop r names [] [] with
    | (some e, leafAdd, grpArrs) =>
      (some e, { s1 with leaf := s1.leaf ++ leafAdd, data := setGroup s1.data gname grpArrs })
    | (none, leafAdd, grpArrs) =>
      (none, { s1 with leaf := s1.leaf ++ leafAdd, data := setGroup s1.data gname grpArrs,
                       db_size := 1 })

/-- The new-group property loop of `add_instance`: read the leaf template
(zarr `KeyError` if absent), read the record's value (`KeyError` if
absent), `assert check_dimensions(...)`, then create the group's length-1
array. Returns the error (if any) with the arrays created so far. -/
def new_group_loop (leaf : List (String × Arr)) (r : Rec) (n : Nat) :
    List String → List (String × GroupArr) → Option Err × List (String × GroupArr)
  | [], acc => (none, acc)
  | k :: rest, acc =>
    match leaf.lookup k with
    | none => (some Err.keyError, acc)
    | some tmpl =>
      match r.find k with
      | none => (some Err.missingProperty, acc)
      | some v =>
        if check_dimensions tmpl.shape v.shape n then
          new_group_loop leaf r n rest (acc ++ [(k, ⟨v.shape, v.dtype, [v]⟩)])
        else (some Err.dimensionMismatch, acc)

/-- The existing-group property loop of `add_instance`: read the record's
value (`KeyError` if absent), then `append(value.reshape(1, *shape))` to
the group's array — zarr accepts the append only when the value's shape
equals the array's trailing shape, else raises. No template validation
happens on this path. -/
def exist_group_loop (r : Rec) : List String → List (String × GroupArr) →
    Option Err × List (String × GroupArr)
  | [], g => (none, g)
  | k :: rest, g =>
    match r.find k with
    | none => (some Err.missingProperty, g)
    | some v =>
      match g.lookup k with
      | none => (some Err.keyError, g)
      | some arr =>
        if v.shape = arr.trail then
          exist_group_loop r rest (setArr g k ⟨arr.trail, arr.dtype, arr.rows ++ [v]⟩)
        else (some Err.backendAppend, g)

/-- The tail of `add_instance` after the group write: compute
`loc_index = len(data/<group>/<first property>) - 1` (an `IndexError` when
`property_names` is empty, a zarr `KeyError` when the array is missing),
increment `db_size`, and append `[n_atoms, loc_index]` to `global/indices`. -/
def finish_add (s : DBState) (gname : String) (names : List String) (n : Nat) :
    Option Err × DBState :=
  match names with
  | [] => (some Err.indexError, s)
  | k0 :: _ =>
    match s.data.lookup gname with
    | none => (some Err.keyError, s)
    | some g =>
      match g.lookup k0 with
      | none => (some Err.keyError, s)
      | some arr =>
        (none, { s with db_size := s.db_size + 1,
                        indices := s.indices ++ [(n, arr.rows.length - 1)] })

/-- `Database.add_instance` on a single record dictionary. Mirrors the
source's statement order: when the store is nonempty the record's
`global_property` is appended to the flags *before* anything is validated;
then the entity size is read, the group is created (with per-property
validation) or appended to (without it), and finally the index row is
appended and the counter incremented. -/
def add_record (s : DBState) (r : Rec) : Option Err × DBState :=
  if s.db_size = 0 then add_first_element s r
  else
    let s1 : DBState := { s with flags := s.flags ++ [r.globalProp.getD 0] }
    match r.find "species" with
    | none => (some Err.missingProperty, s1)
    | some sp =>
      let n := firstDim sp.shape
      let gname := pad3 n
      let names := s1.property_names.getD []
      match s1.data.lookup gname with
      | none =>
        match new_group_loop s1.leaf r n names [] with
        | (some e, acc) => (some e, { s1 with data := s1.data ++ [(gname, acc)] })
        | (none, acc) =>
          finish_add { s1 with data := s1.data ++ [(gname, acc)] } gname names n
      | some g =>
        match exist_group_loop r names g with
        | (some e, g') => (some e, { s1 with data := setGroup s1.data gname g' })
        | (none, g') =>
          finish_add { s1 with data := setGroup s1.data gname g' } gname names n

mutual
/-- The argument of `add_instance`: a single record dictionary or a
(possibly nested) list of such arguments. -/
inductive Item where
  | record (r : Rec)
  | items (l : ItemList)
/-- A Python list of `add_instance` arguments. -/
inductive ItemList where
  | nil
  | cons (hd : Item) (tl : ItemList)
end

mutual
/-- Number of individual record dictionaries inside an `add_instance`
argument. -/
def countRecs : Item → Nat
  | Item.record _ => 1
  | Item.items l => countList l
/-- Number of record dictionaries inside a list argument. -/
def countList : ItemList → Nat
  | ItemList.nil => 0
  | ItemList.cons hd tl => countRecs hd + countList tl
end

mutual
/-- `Database.add_instance`: list inputs are processed in order as single
insertions; an exception aborts the remainder of the list but keeps the
writes of the earlier, successful insertions. -/
def add_instance (s : DBState) : Item → Option Err × DBState
  | Item.record r => add_record s r
  | Item.items l => add_instance_list s l
/-- The `for i in item: self.add_instance(i)` loop. -/
def add_instance_list (s : DBState) : ItemList → Option Err × DBState
  | ItemList.nil => (none, s)
  | ItemList.cons hd tl =>
    match add_instance s hd with
    | (some e, s') => (some e, s')
    | (none, s') => add_instance_list s' tl
end

/-- Read one row of every array of a group (`IndexError` when the offset is
out of range). -/
def read_group_row : List (String × GroupArr) → Nat → Except Err (List (String × Arr))
  | [], _ => Except.ok []
  | (k, arr) :: rest, off =>
    if off < arr.rows.length then
      match read_group_row rest off with
      | Except.error e => Except.error e
      | Except.ok out => Except.ok ((k, arr.rows.getD off defaultArr) :: out)
    else Except.error Err.indexError

/-- `Database.get_item` in single-record mode: the source builds the group
path from the raw integer (`f"data/{selection_index[0]}"`, i.e. `toString`
with no zero padding) and reads each property at the local offset. -/
def get_item_single (s : DBState) (sel : Nat × Nat) : Except Err (List (String × Arr)) :=
  match s.data.lookup (toString sel.1) with
  | none => Except.error Err.keyError
  | some g => read_group_row g sel.2

/-- Set the listed positions of the flag array to 2 (numpy fancy-index
assignment `global_property[positions] = 2`). -/
def setFlagPositions (flags : List Int) (ps : List Nat) : List Int :=
  (List.range flags.length).map (fun i => if ps.contains i then 2 else flags.getD i 0)

/-- `Database.create_initial_reduction(name, fraction, overwrite,
exclude_global)`. `chosen` stands for the output of
`np.random.choice(valid_positions, selection_size, replace=False)` and is
guarded by that call's contract. The flag write reproduces the source
verbatim: the flag array is indexed with `selected_indices` — the 2-column
rows read from `global/indices` — so flag 2 lands at the positions given by
the *values* of those rows (entity sizes and local offsets), not at the
selected positions; an out-of-range value raises. Then stage "000" of the
named reduction is created (failing when the name exists and overwriting is
not requested). -/
def create_initial_reduction (s : DBState) (name : String) (fraction : ℚ)
    (overwrite : Bool) (exclude_global : Option (List Int)) (chosen : List Nat) :
    Option Err × DBState :=
  let valid := exclude_values s.flags exclude_global
  let size := (pyTrunc (fraction * (valid.length : ℚ))).toNat
  if chosen.length = size ∧ (∀ p ∈ chosen, p ∈ valid) ∧ chosen.Nodup then
    let selectedIdx := chosen.map (fun p => s.indices.getD p (0, 0))
    let writePos := selectedIdx.foldr (fun pr acc => pr.1 :: pr.2 :: acc) []
    if writePos.any (fun p => s.flags.length ≤ p) then (some Err.indexError, s)
    else
      let s1 : DBState := { s with flags := setFlagPositions s.flags writePos }
      match s1.reductions.lookup name with
      | some _ =>
        if overwrite then
          (none, { s1 with reductions :=
            (s1.reductions.filter (fun p => !(p.1 == name))) ++ [(name, [("000", selectedIdx)])] })
        else (some Err.containsGroup, s1)
      | none =>
        (none, { s1 with reductions := s1.reductions ++ [(name, [("000", selectedIdx)])] })
  else (some Err.invalidDraw, s)

/-- Stable insertion of an index row into a list sorted by group key. -/
def insertByKey (x : Nat × Nat) : List (Nat × Nat) → List (Nat × Nat)
  | [] => [x]
  | y :: ys => if x.1 ≤ y.1 then x :: y :: ys else y :: insertByKey x ys

/-- `np.argsort(valid_indices[:, 0])` applied to the rows: a sort by the
group-key column (the model uses an insertion sort; the claims do not
depend on how argsort breaks ties). -/
def sortByKey : List (Nat × Nat) → List (Nat × Nat)
  | [] => []
  | x :: xs => insertByKey x (sortByKey xs)

/-- The snapshot built by `Database.get_chunk_loader`: the source calls
`exclude_values(self.root['global/global_property'][:])` with no `values`
argument — the `exclude_global` parameter is never passed on — then gathers
the index rows at the returned positions and sorts them by group key. -/
def get_chunk_loader_snapshot (s : DBState) (exclude_global : Option (List Int)) :
    List (Nat × Nat) :=
  let valid := exclude_values s.flags none
  sortByKey (valid.map (fun p => s.indices.getD p (0, 0)))

/-- `Database.get_chunk_loader`: the snapshot handed to `ChunkLoader`,
already split into windows. -/
def get_chunk_loader (s : DBState) (chunk_size : Nat)
    (exclude_global : Option (List Int)) : List (List (Nat × Nat)) :=
  chunk_indices (get_chunk_loader_snapshot s exclude_global) chunk_size

/-- A 3-atom `species` array (`np.array([1, 8, 1])`). -/
def speciesArr3 : Arr := ⟨[3], DType.int, fun _ => 1⟩

/-- A matching 3×3 `forces` array. -/
def forcesArr33 : Arr := ⟨[3, 3], DType.float, fun _ => 0⟩

/-- A well-formed 3-atom record with `species` and `forces`. -/
def waterRec : Rec := ⟨[("species", speciesArr3), ("forces", forcesArr33)], none⟩

/-- The database after inserting `waterRec` into a fresh store. -/
def db1 : DBState := (add_record emptyDB waterRec).2

/-- A 5-atom record whose `forces` shape (4, 3) violates the single-axis
rule against the frozen template (3, 3): the differing axis is 4 ≠ 5. -/
def badNewGroupRec : Rec :=
  ⟨[("species", ⟨[5], DType.int, fun _ => 1⟩),
    ("forces", ⟨[4, 3], DType.float, fun _ => 0⟩)], none⟩

/-- A 3-atom record whose `forces` shape (2, 3) violates the single-axis
rule against the template (3, 3), aimed at the already-existing group. -/
def badExistGroupRec : Rec :=
  ⟨[("species", speciesArr3), ("forces", ⟨[2, 3], DType.float, fun _ => 0⟩)], none⟩

/-- A 3-atom record carrying `global_property = 1` (the caller-reserved
exclusion flag). -/
def flaggedRec : Rec := ⟨[("species", speciesArr3), ("forces", forcesArr33)], some 1⟩

/-- `[waterRec, flaggedRec]` as one list argument. -/
def twoItems : Item :=
  Item.items (ItemList.cons (Item.record waterRec)
    (ItemList.cons (Item.record flaggedRec) ItemList.nil))

/-- The database holding `waterRec` then `flaggedRec`: flags `[0, 1]`. -/
def db2 : DBState := (add_instance emptyDB twoItems).2

/-- A minimal 3-atom record with only the mandatory `species` property. -/
def speciesOnlyRec : Rec := ⟨[("species", speciesArr3)], none⟩

/-- Four copies of `speciesOnlyRec` as one list argument. -/
def fourItems : Item :=
  Item.items (ItemList.cons (Item.record speciesOnlyRec)
    (ItemList.cons (Item.record speciesOnlyRec)
      (ItemList.cons (Item.record speciesOnlyRec)
        (ItemList.cons (Item.record speciesOnlyRec) ItemList.nil))))

/-- The leaf-structure template created by `speciesOnlyRec`. -/
def speciesLeaf : List (String × Arr) := [("species", ⟨[3], DType.int, fun _ => 0⟩)]

/-- The group-003 species array holding `k` copies of `speciesArr3`. -/
def speciesGroup (rows : List Arr) : List (String × List (String × GroupArr)) :=
  [("003", [("species", ⟨[3], DType.int, rows⟩)])]

/-- The database state after inserting `speciesOnlyRec` once. -/
def dbS1 : DBState :=
  ⟨some ["species"], speciesLeaf, speciesGroup [speciesArr3], [(3, 0)], [0], 1, []⟩

/-- The database state after inserting `speciesOnlyRec` twice. -/
def dbS2 : DBState :=
  ⟨some ["species"], speciesLeaf, speciesGroup [speciesArr3, speciesArr3],
    [(3, 0), (3, 1)], [0, 0], 2, []⟩

/-- The database state after inserting `speciesOnlyRec` three times. -/
def dbS3 : DBState :=
  ⟨some ["species"], speciesLeaf, speciesGroup [speciesArr3, speciesArr3, speciesArr3],
    [(3, 0), (3, 1), (3, 2)], [0, 0, 0], 3, []⟩

/-- The database state after the four insertions: flags `[0, 0, 0, 0]`,
Global Index `[[3,0],[3,1],[3,2],[3,3]]`. -/
def db4 : DBState :=
  ⟨some ["species"], speciesLeaf,
    speciesGroup [speciesArr3, speciesArr3, speciesArr3, speciesArr3],
    [(3, 0), (3, 1), (3, 2), (3, 3)], [0, 0, 0, 0], 4, []⟩

/-- A 1×1 integer array with entries 5, for the concatenation witnesses. -/
def cArrA : NDArray := ⟨DType.int, 1, [1], fun _ _ => 5⟩

/-- A 2×3 float array with entries 7, whose trailing shape differs from
`cArrA`. -/
def cArrB : NDArray := ⟨DType.float, 2, [3], fun _ _ => 7⟩

/-- The copy loop only assigns entries: dtype, leading length and trailing
shape of the destination are unchanged. -/
theorem writeAll_fields : ∀ (l : List NDArray) (pos : Nat) (res : NDArray),
    (writeAll l pos res).dtype = res.dtype ∧
    (writeAll l pos res).lead = res.lead ∧
    (writeAll l pos res).trail = res.trail := by
  intro l
  induction l with
  | nil => intro pos res; exact ⟨rfl, rfl, rfl⟩
  | cons a rest ih => intro pos res; exact ih (pos + a.lead) (writeRegion res pos a)

/-- A region write leaves rows before the region untouched. -/
theorem writeRegion_data_lo (res : NDArray) (pos : Nat) (a : NDArray) (i : Nat)
    (idx : List Nat) (h : i < pos) :
    (writeRegion res pos a).data i idx = res.data i idx := by
  simp only [writeRegion]
  rw [if_neg]
  rintro ⟨h1, -, -⟩
  omega

/-- A region write leaves rows after the region untouched. -/
theorem writeRegion_data_hi (res : NDArray) (pos : Nat) (a : NDArray) (i : Nat)
    (idx : List Nat) (h : pos + a.lead ≤ i) :
    (writeRegion res pos a).data i idx = res.data i idx := by
  simp only [writeRegion]
  rw [if_neg]
  rintro ⟨-, h2, -⟩
  omega

/-- Inside the region the written value is the source value (cast to the
destination dtype). -/
theorem writeRegion_data_in (res : NDArray) (pos : Nat) (a : NDArray) (i : Nat)
    (idx : List Nat) (h1 : pos ≤ i) (h2 : i < pos + a.lead)
    (h3 : withinB idx a.trail = true) :
    (writeRegion res pos a).data i idx = castTo res.dtype (a.data (i - pos) idx) := by
  simp only [writeRegion]
  rw [if_pos ⟨h1, h2, h3⟩]

/-- A multi-index outside the source's trailing shape is untouched by the
region write. -/
theorem writeRegion_data_out (res : NDArray) (pos : Nat) (a : NDArray) (i : Nat)
    (idx : List Nat) (h3 : withinB idx a.trail = false) :
    (writeRegion res pos a).data i idx = res.data i idx := by
  simp only [writeRegion]
  rw [if_neg]
  rintro ⟨-, -, h⟩
  rw [h3] at h
  cases h

/-- The copy loop never touches rows before its start position. -/
theorem writeAll_lo : ∀ (l : List NDArray) (pos : Nat) (res : NDArray) (i : Nat)
    (idx : List Nat), i < pos → (writeAll l pos res).data i idx = res.data i idx := by
  intro l
  induction l with
  | nil => intro pos res i idx _; rfl
  | cons a rest ih =>
    intro pos res i idx h
    simp only [writeAll]
    rw [ih (pos + a.lead) _ i idx (by omega), writeRegion_data_lo _ _ _ _ _ h]

/-- `leadOffset` at 0. -/
theorem leadOffset_zero (l : List NDArray) : leadOffset l 0 = 0 := by
  simp [leadOffset]

/-- `leadOffset` unfolding on a cons cell. -/
theorem leadOffset_cons (a : NDArray) (l : List NDArray) (n : Nat) :
    leadOffset (a :: l) (n + 1) = a.lead + leadOffset l n := by
  simp [leadOffset]

/-- Each input's entries reappear (dtype-cast) at the top-left-aligned
region of its row block of the copy loop's result. -/
theorem writeAll_get : ∀ (l : List NDArray) (n : Nat) (hn : n < l.length) (pos : Nat)
    (res : NDArray) (i : Nat) (idx : List Nat),
    i < (l.get ⟨n, hn⟩).lead → withinB idx (l.get ⟨n, hn⟩).trail = true →
    (writeAll l pos res).data (pos + leadOffset l n + i) idx =
      castTo res.dtype ((l.get ⟨n, hn⟩).data i idx) := by
  intro l
  induction l with
  | nil => intro n hn; simp at hn
  | cons a rest ih =>
    intro n hn pos res i idx hi hwithin
    cases n with
    | zero =>
      simp only [List.get] at hi hwithin ⊢
      simp only [writeAll, leadOffset_zero]
      rw [writeAll_lo rest (pos + a.lead) _ _ idx (by omega)]
      rw [writeRegion_data_in res pos a _ idx (by omega) (by omega) hwithin]
      rw [show pos + 0 + i - pos = i from by omega]
    | succ m =>
      simp only [List.get] at hi hwithin ⊢
      simp only [writeAll]
      rw [leadOffset_cons]
      have h := ih m (by simpa using hn) (pos + a.lead) (writeRegion res pos a) i idx hi hwithin
      rw [show pos + (a.lead + leadOffset rest m) + i = pos + a.lead + leadOffset rest m + i
        from by omega]
      exact h

/-- A multi-index valid for the result but outside the covering input's
trailing shape keeps the destination's original entry. -/
theorem writeAll_out : ∀ (l : List NDArray) (n : Nat) (hn : n < l.length) (pos : Nat)
    (res : NDArray) (i : Nat) (idx : List Nat),
    i < (l.get ⟨n, hn⟩).lead → withinB idx (l.get ⟨n, hn⟩).trail = false →
    (writeAll l pos res).data (pos + leadOffset l n + i) idx =
      res.data (pos + leadOffset l n + i) idx := by
  intro l
  induction l with
  | nil => intro n hn; simp at hn
  | cons a rest ih =>
    intro n hn pos res i idx hi hwithin
    cases n with
    | zero =>
      simp only [List.get] at hi hwithin ⊢
      simp only [writeAll, leadOffset_zero]
      rw [writeAll_lo rest (pos + a.lead) _ _ idx (by omega)]
      rw [writeRegion_data_out res pos a _ idx hwithin]
    | succ m =>
      simp only [List.get] at hi hwithin ⊢
      simp only [writeAll]
      rw [leadOffset_cons]
      have h := ih m (by simpa using hn) (pos + a.lead) (writeRegion res pos a) i idx hi hwithin
      rw [show pos + (a.lead + leadOffset rest m) + i = pos + a.lead + leadOffset rest m + i
        from by omega]
      rw [h, writeRegion_data_hi res pos a _ idx (by omega)]

/-- A componentwise fold over rows of a common rank keeps that rank. -/
theorem compFold_length (f : Nat → Nat → Nat) : ∀ (ts : List (List Nat)) (t0 : List Nat),
    (∀ t ∈ ts, t.length = t0.length) → (compFold f t0 ts).length = t0.length := by
  intro ts
  induction ts with
  | nil => intro t0 _; rfl
  | cons t ts' ih =>
    intro t0 h
    have hlen : (List.zipWith f t0 t).length = t0.length := by
      rw [List.length_zipWith]
      have := h t (by simp)
      omega
    have hstep : compFold f t0 (t :: ts') = compFold f (List.zipWith f t0 t) ts' := by
      simp [compFold]
    rw [hstep, ih (List.zipWith f t0 t)
      (fun u hu => by rw [hlen]; exact h u (List.mem_cons_of_mem _ hu)), hlen]

/-- Componentwise access through `zipWith`. -/
theorem getD_zipWith (f : Nat → Nat → Nat) : ∀ (a b : List Nat) (k : Nat),
    k < a.length → k < b.length →
    (List.zipWith f a b).getD k 0 = f (a.getD k 0) (b.getD k 0) := by
  intro a
  induction a with
  | nil => intro b k h; simp at h
  | cons x a' ih =>
    intro b k hka hkb
    cases b with
    | nil => simp at hkb
    | cons y b' =>
      cases k with
      | zero => rfl
      | succ m =>
        simp only [List.zipWith_cons_cons, List.getD_cons_succ]
        exact ih b' m (by simpa using hka) (by simpa using hkb)

/-- The componentwise fold computed pointwise. -/
theorem compFold_getD (f : Nat → Nat → Nat) : ∀ (ts : List (List Nat)) (t0 : List Nat)
    (k : Nat), k < t0.length → (∀ t ∈ ts, t.length = t0.length) →
    (compFold f t0 ts).getD k 0 =
      (ts.map (fun t => t.getD k 0)).foldl f (t0.getD k 0) := by
  intro ts
  induction ts with
  | nil => intro t0 k _ _; rfl
  | cons t ts' ih =>
    intro t0 k hk h
    have hlen : (List.zipWith f t0 t).length = t0.length := by
      rw [List.length_zipWith]
      have := h t (by simp)
      omega
    have hstep : compFold f t0 (t :: ts') = compFold f (List.zipWith f t0 t) ts' := by
      simp [compFold]
    rw [hstep, ih (List.zipWith f t0 t) k (by omega)
      (fun u hu => by rw [hlen]; exact h u (List.mem_cons_of_mem _ hu))]
    rw [getD_zipWith f t0 t k hk (by rw [h t (by simp)]; exact hk)]
    rfl

/-- A `max` fold bounds its start value and every list element from above. -/
theorem le_foldl_max : ∀ (xs : List Nat) (a : Nat),
    a ≤ xs.foldl Nat.max a ∧ ∀ x ∈ xs, x ≤ xs.foldl Nat.max a := by
  intro xs
  induction xs with
  | nil => intro a; exact ⟨le_rfl, by simp⟩
  | cons x xs' ih =>
    intro a
    constructor
    · exact le_trans (Nat.le_max_left a x) (ih (Nat.max a x)).1
    · intro y hy
      rcases List.mem_cons.mp hy with h | h
      · subst h
        exact le_trans (Nat.le_max_right a y) (ih (Nat.max a y)).1
      · exact (ih (Nat.max a x)).2 y h

/-- A `max` fold returns its start value or one of the list elements. -/
theorem foldl_max_mem : ∀ (xs : List Nat) (a : Nat),
    xs.foldl Nat.max a = a ∨ xs.foldl Nat.max a ∈ xs := by
  intro xs
  induction xs with
  | nil => intro a; exact Or.inl rfl
  | cons x xs' ih =>
    intro a
    rcases ih (Nat.max a x) with h | h
    · have hM : Nat.max a x = a ∨ Nat.max a x = x := by
        rcases Nat.le_total a x with hle | hle
        · exact Or.inr (Nat.max_eq_right hle)
        · exact Or.inl (Nat.max_eq_left hle)
      rcases hM with hM | hM
      · exact Or.inl (by rw [List.foldl_cons, h, hM])
      · exact Or.inr (by rw [List.foldl_cons, h, hM]; exact List.mem_cons_self _ _)
    · exact Or.inr (List.mem_cons_of_mem _ (by simpa using h))

/-- A `min` fold is bounded by its start value and every list element. -/
theorem foldl_min_le : ∀ (xs : List Nat) (a : Nat),
    xs.foldl Nat.min a ≤ a ∧ ∀ x ∈ xs, xs.foldl Nat.min a ≤ x := by
  intro xs
  induction xs with
  | nil => intro a; exact ⟨le_rfl, by simp⟩
  | cons x xs' ih =>
    intro a
    constructor
    · exact le_trans (ih (Nat.min a x)).1 (Nat.min_le_left a x)
    · intro y hy
      rcases List.mem_cons.mp hy with h | h
      · subst h
        exact le_trans (ih (Nat.min a y)).1 (Nat.min_le_right a y)
      · exact (ih (Nat.min a x)).2 y h

/-- A componentwise fold over rows all equal to the start row (for an
idempotent operation) is the start row. -/
theorem compFold_const (f : Nat → Nat → Nat) (hf : ∀ x, f x x = x) :
    ∀ (ts : List (List Nat)) (t0 : List Nat), (∀ t ∈ ts, t = t0) →
      compFold f t0 ts = t0 := by
  intro ts
  induction ts with
  | nil => intro t0 _; rfl
  | cons t ts' ih =>
    intro t0 h
    have ht : t = t0 := h t (by simp)
    have hself : ∀ (u : List Nat), List.zipWith f u u = u := by
      intro u
      induction u with
      | nil => rfl
      | cons x u' ihu => simp [hf, ihu]
    have hstep : compFold f t0 (t :: ts') = compFold f (List.zipWith f t0 t) ts' := by
      simp [compFold]
    rw [hstep, ht, hself t0]
    exact ih t0 (fun u hu => h u (List.mem_cons_of_mem _ hu))

/-- The min/max rows of the shape table coincide exactly when all trailing
shapes are equal (given a common rank). -/
theorem minS_eq_maxS_iff (a0 : NDArray) (rest : List NDArray)
    (hrank : ∀ a ∈ a0 :: rest, a.trail.length = a0.trail.length) :
    (compFold Nat.min a0.trail (rest.map (fun a => a.trail)) =
      compFold Nat.max a0.trail (rest.map (fun a => a.trail))) ↔
    (∀ a ∈ a0 :: rest, a.trail = a0.trail) := by
  constructor
  · intro heq a ha
    rcases List.mem_cons.mp ha with h | h
    · rw [h]
    · have hlen : a.trail.length = a0.trail.length := hrank a ha
      have hranks : ∀ t ∈ rest.map (fun a => a.trail), t.length = a0.trail.length := by
        intro t ht
        obtain ⟨b, hb, rfl⟩ := List.mem_map.mp ht
        exact hrank b (List.mem_cons_of_mem _ hb)
      refine List.ext_getElem hlen (fun k hk1 hk2 => ?_)
      have hk : k < a0.trail.length := hk2
      have hminD := compFold_getD Nat.min (rest.map (fun a => a.trail)) a0.trail k hk hranks
      have hmaxD := compFold_getD Nat.max (rest.map (fun a => a.trail)) a0.trail k hk hranks
      have heqD := congrArg (fun t => t.getD k 0) heq
      simp only at heqD
      rw [hminD, hmaxD] at heqD
      set xs := (rest.map (fun a => a.trail)).map (fun t => t.getD k 0) with hxs
      have hmem : a.trail.getD k 0 ∈ xs := by
        rw [hxs]
        exact List.mem_map.mpr ⟨a.trail, List.mem_map.mpr ⟨a, h, rfl⟩, rfl⟩
      have h1 := (foldl_min_le xs (a0.trail.getD k 0)).2 _ hmem
      have h2 := (le_foldl_max xs (a0.trail.getD k 0)).2 _ hmem
      have h3 := (foldl_min_le xs (a0.trail.getD k 0)).1
      have h4 := (le_foldl_max xs (a0.trail.getD k 0)).1
      have hval : a.trail.getD k 0 = a0.trail.getD k 0 := by omega
      have hgetA : a.trail.getD k 0 = a.trail[k] := List.getD_eq_getElem a.trail 0 hk1
      have hgetA0 : a0.trail.getD k 0 = a0.trail[k] := List.getD_eq_getElem a0.trail 0 hk2
      rw [hgetA, hgetA0] at hval
      exact hval
  · intro hall
    have hrows : ∀ t ∈ rest.map (fun a => a.trail), t = a0.trail := by
      intro t ht
      obtain ⟨b, hb, rfl⟩ := List.mem_map.mp ht
      exact hall b (List.mem_cons_of_mem _ hb)
    rw [compFold_const Nat.min Nat.min_self _ _ hrows,
      compFold_const Nat.max Nat.max_self _ _ hrows]

/-- Unfolding of `concatenate_different_arrays` on a nonempty list with
`stack = False`. -/
theorem concat_unfold (a0 : NDArray) (rest : List NDArray) :
    concatenate_different_arrays (a0 :: rest) false =
      (if ∀ a ∈ a0 :: rest, a.trail.length = a0.trail.length then
        (if compFold Nat.min a0.trail (rest.map (fun a => a.trail)) =
            compFold Nat.max a0.trail (rest.map (fun a => a.trail)) then
          some (npConcatenate a0 rest)
        else
          some (writeAll (a0 :: rest) 0
            (zerosArray a0.dtype (sumLeads (a0 :: rest))
              (compFold Nat.max a0.trail (rest.map (fun a => a.trail))))))
      else none) := rfl

/-- Claim C7: ragged concatenation. For every nonempty list of arrays of a
common rank: when all trailing shapes agree the result is plain
`np.concatenate`; otherwise the result exists and has leading length the
sum of the inputs' leading lengths, trailing shape the componentwise
maximum of the inputs' trailing shapes (same rank, an upper bound attained
at some input in every component), each input's entries reappear unchanged
in the top-left-aligned region of its row block, and every remaining entry
of the result box is zero. -/
theorem concatenate_ragged_correct (a0 : NDArray) (rest : List NDArray)
    (hrank : ∀ a ∈ a0 :: rest, a.trail.length = a0.trail.length) :
    ((∀ a ∈ a0 :: rest, a.trail = a0.trail) →
      concatenate_different_arrays (a0 :: rest) false = some (npConcatenate a0 rest)) ∧
    (¬ (∀ a ∈ a0 :: rest, a.trail = a0.trail) →
      ∃ r, concatenate_different_arrays (a0 :: rest) false = some r ∧
        r.lead = sumLeads (a0 :: rest) ∧
        r.trail.length = a0.trail.length ∧
        (∀ k, k < a0.trail.length →
          (∀ a ∈ a0 :: rest, a.trail.getD k 0 ≤ r.trail.getD k 0) ∧
          (∃ a ∈ a0 :: rest, r.trail.getD k 0 = a.trail.getD k 0)) ∧
        (∀ (n : Nat) (hn : n < (a0 :: rest).length) (i : Nat) (idx : List Nat),
          i < ((a0 :: rest).get ⟨n, hn⟩).lead →
          withinB idx ((a0 :: rest).get ⟨n, hn⟩).trail = true →
          r.data (leadOffset (a0 :: rest) n + i) idx =
            ((a0 :: rest).get ⟨n, hn⟩).data i idx) ∧
        (∀ (n : Nat) (hn : n < (a0 :: rest).length) (i : Nat) (idx : List Nat),
          i < ((a0 :: rest).get ⟨n, hn⟩).lead →
          withinB idx ((a0 :: rest).get ⟨n, hn⟩).trail = false →
          r.data (leadOffset (a0 :: rest) n + i) idx = 0)) := by
  have hts : ∀ t ∈ rest.map (fun a => a.trail), t.length = a0.trail.length := by
    intro t ht
    obtain ⟨b, hb, rfl⟩ := List.mem_map.mp ht
    exact hrank b (List.mem_cons_of_mem _ hb)
  constructor
  · intro hall
    rw [concat_unfold, if_pos hrank, if_pos ((minS_eq_maxS_iff a0 rest hrank).mpr hall)]
  · intro hne
    have hmm : ¬(compFold Nat.min a0.trail (rest.map (fun a => a.trail)) =
        compFold Nat.max a0.trail (rest.map (fun a => a.trail))) :=
      fun h => hne ((minS_eq_maxS_iff a0 rest hrank).mp h)
    rw [concat_unfold, if_pos hrank, if_neg hmm]
    obtain ⟨hd, hl, ht⟩ := writeAll_fields (a0 :: rest) 0
      (zerosArray a0.dtype (sumLeads (a0 :: rest))
        (compFold Nat.max a0.trail (rest.map (fun a => a.trail))))
    refine ⟨_, rfl, hl, ?_, ?_, ?_, ?_⟩
    · rw [ht]
      exact compFold_length Nat.max _ a0.trail hts
    · intro k hk
      have hD := compFold_getD Nat.max (rest.map (fun a => a.trail)) a0.trail k hk hts
      rw [List.map_map] at hD
      constructor
      · intro a ha
        rw [ht]
        simp only [zerosArray]
        rw [hD]
        rcases List.mem_cons.mp ha with h | h
        · subst h
          exact (le_foldl_max _ _).1
        · exact (le_foldl_max _ _).2 _
            (List.mem_map.mpr ⟨a, h, rfl⟩)
      · rw [ht]
        simp only [zerosArray]
        rw [hD]
        rcases foldl_max_mem (rest.map ((fun t => t.getD k 0) ∘ fun a => a.trail))
            (a0.trail.getD k 0) with h | h
        · exact ⟨a0, by simp, h⟩
        · obtain ⟨b, hb, hbeq⟩ := List.mem_map.mp h
          exact ⟨b, List.mem_cons_of_mem _ hb, hbeq.symm⟩
    · intro n hn i idx hi hwin
      have h := writeAll_get (a0 :: rest) n hn 0
        (zerosArray a0.dtype (sumLeads (a0 :: rest))
          (compFold Nat.max a0.trail (rest.map (fun a => a.trail)))) i idx hi hwin
      rw [Nat.zero_add] at h
      exact h
    · intro n hn i idx hi hwout
      have h := writeAll_out (a0 :: rest) n hn 0
        (zerosArray a0.dtype (sumLeads (a0 :: rest))
          (compFold Nat.max a0.trail (rest.map (fun a => a.trail)))) i idx hi hwout
      rw [Nat.zero_add] at h
      exact h

/-- Witness for C7 at the differing-trailing-shape inputs `cArrA` (1×1 int)
and `cArrB` (2×3 float). -/
theorem concatenate_ragged_correct_witness :
    ∃ r, concatenate_different_arrays [cArrA, cArrB] false = some r ∧
      r.lead = sumLeads [cArrA, cArrB] ∧
      r.trail.length = cArrA.trail.length ∧
      (∀ k, k < cArrA.trail.length →
        (∀ a ∈ [cArrA, cArrB], a.trail.getD k 0 ≤ r.trail.getD k 0) ∧
        (∃ a ∈ [cArrA, cArrB], r.trail.getD k 0 = a.trail.getD k 0)) ∧
      (∀ (n : Nat) (hn : n < ([cArrA, cArrB] : List NDArray).length) (i : Nat)
        (idx : List Nat),
        i < (([cArrA, cArrB] : List NDArray).get ⟨n, hn⟩).lead →
        withinB idx (([cArrA, cArrB] : List NDArray).get ⟨n, hn⟩).trail = true →
        r.data (leadOffset [cArrA, cArrB] n + i) idx =
          (([cArrA, cArrB] : List NDArray).get ⟨n, hn⟩).data i idx) ∧
      (∀ (n : Nat) (hn : n < ([cArrA, cArrB] : List NDArray).length) (i : Nat)
        (idx : List Nat),
        i < (([cArrA, cArrB] : List NDArray).get ⟨n, hn⟩).lead →
        withinB idx (([cArrA, cArrB] : List NDArray).get ⟨n, hn⟩).trail = false →
        r.data (leadOffset [cArrA, cArrB] n + i) idx = 0) :=
  (concatenate_ragged_correct cArrA [cArrB] (by decide)).2 (by decide)

/-- Claim C10: in the padded (differing trailing shapes) branch the result
is allocated with the dtype of the *first* input, whatever the other
inputs' dtypes, and every copied entry is the source entry cast to that
dtype. -/
theorem concatenate_padded_dtype_first (a0 : NDArray) (rest : List NDArray)
    (hrank : ∀ a ∈ a0 :: rest, a.trail.length = a0.trail.length)
    (hne : ¬ (∀ a ∈ a0 :: rest, a.trail = a0.trail)) :
    ∃ r, concatenate_different_arrays (a0 :: rest) false = some r ∧
      r.dtype = a0.dtype ∧
      (∀ (n : Nat) (hn : n < (a0 :: rest).length) (i : Nat) (idx : List Nat),
        i < ((a0 :: rest).get ⟨n, hn⟩).lead →
        withinB idx ((a0 :: rest).get ⟨n, hn⟩).trail = true →
        r.data (leadOffset (a0 :: rest) n + i) idx =
          castTo a0.dtype (((a0 :: rest).get ⟨n, hn⟩).data i idx)) := by
  have hmm : ¬(compFold Nat.min a0.trail (rest.map (fun a => a.trail)) =
      compFold Nat.max a0.trail (rest.map (fun a => a.trail))) :=
    fun h => hne ((minS_eq_maxS_iff a0 rest hrank).mp h)
  rw [concat_unfold, if_pos hrank, if_neg hmm]
  obtain ⟨hd, hl, ht⟩ := writeAll_fields (a0 :: rest) 0
    (zerosArray a0.dtype (sumLeads (a0 :: rest))
      (compFold Nat.max a0.trail (rest.map (fun a => a.trail))))
  refine ⟨_, rfl, hd, ?_⟩
  intro n hn i idx hi hwin
  have h := writeAll_get (a0 :: rest) n hn 0
    (zerosArray a0.dtype (sumLeads (a0 :: rest))
      (compFold Nat.max a0.trail (rest.map (fun a => a.trail)))) i idx hi hwin
  rw [Nat.zero_add] at h
  exact h

/-- Witness for C10: concatenating `cArrA` (int) with `cArrB` (float) in
the padded branch yields an int result — the first input's dtype. -/
theorem concatenate_padded_dtype_first_witness :
    ∃ r, concatenate_different_arrays [cArrA, cArrB] false = some r ∧
      r.dtype = cArrA.dtype ∧
      (∀ (n : Nat) (hn : n < ([cArrA, cArrB] : List NDArray).length) (i : Nat)
        (idx : List Nat),
        i < (([cArrA, cArrB] : List NDArray).get ⟨n, hn⟩).lead →
        withinB idx (([cArrA, cArrB] : List NDArray).get ⟨n, hn⟩).trail = true →
        r.data (leadOffset [cArrA, cArrB] n + i) idx =
          castTo cArrA.dtype ((([cArrA, cArrB] : List NDArray).get ⟨n, hn⟩).data i idx)) :=
  concatenate_padded_dtype_first cArrA [cArrB] (by decide) (by decide)

/-- Splitting never yields an empty list of parts: `np.split` returns
`borders + 1` parts. -/
theorem splitBordersAux_ne_nil (bs : List Nat) (prev : Nat) (l : List (Nat × Nat)) :
    splitBordersAux bs prev l ≠ [] := by
  cases bs <;> simp [splitBordersAux]

/-- Shifting every border and the start position by the same offset does
not change the parts. -/
theorem splitBordersAux_shift (c : Nat) :
    ∀ (bs : List Nat) (prev : Nat) (l : List (Nat × Nat)),
      splitBordersAux (bs.map (fun x => x + c)) (prev + c) l = splitBordersAux bs prev l := by
  intro bs
  induction bs with
  | nil => intro prev l; rfl
  | cons b rest ih =>
    intro prev l
    simp only [List.map_cons, splitBordersAux]
    have h1 : b + c - (prev + c) = b - prev := by omega
    rw [h1]
    exact congrArg (List.cons _) (ih b _)

/-- Unfolding of the border list: the borders for `k + 2` windows are `w`
followed by the borders for `k + 1` windows shifted by `w`. -/
theorem chunk_borders_succ (w k : Nat) :
    chunk_borders w (k + 2) = w :: (chunk_borders w (k + 1)).map (fun x => x + w) := by
  simp only [chunk_borders]
  rw [show k + 2 - 1 = k + 1 from rfl, show k + 1 - 1 = k from rfl, List.range'_succ]
  simp only [List.map_cons, one_mul, List.map_map]
  congr 1
  have h2 : List.range' 2 k = (List.range' 1 k).map (fun x => x + 1) := by
    rw [List.range'_eq_map_range, List.range'_eq_map_range, List.map_map]
    refine List.map_congr_left (fun a _ => ?_)
    simp only [Function.comp_apply]
    omega
  rw [h2, List.map_map]
  refine List.map_congr_left (fun a _ => ?_)
  simp only [Function.comp_apply]
  ring

/-- Window count: one more window when the population exceeds the window
size. -/
theorem n_chunks_step (p w : Nat) (hw : 0 < w) (hlt : w < p) :
    n_chunks p w = n_chunks (p - w) w + 1 := by
  obtain ⟨q, hq⟩ : ∃ q, p = q + w := ⟨1 * (p - w), by omega⟩
  subst hq
  rw [Nat.add_sub_cancel, n_chunks, n_chunks, Nat.add_div_right _ hw, Nat.add_mod_right]
  by_cases hmod : q % w = 0
  · simp [hmod]
  · simp [hmod]

/-- Window count: a single window when the population fits in one. -/
theorem n_chunks_base (p w : Nat) (hw : 0 < w) (hp : 0 < p) (hle : p ≤ w) :
    n_chunks p w = 1 := by
  rcases Nat.lt_or_ge p w with hlt | hge
  · rw [n_chunks, Nat.div_eq_of_lt hlt, Nat.mod_eq_of_lt hlt, if_pos (by omega)]
  · have hpw : p = w := by omega
    subst hpw
    rw [n_chunks, Nat.div_self hw, Nat.mod_self]
    simp

/-- One step of the window split: when the population exceeds the window
size, the first window is the first `w` entries and the rest is the split
of the remainder. -/
theorem chunk_indices_step (l : List (Nat × Nat)) (w : Nat) (hw : 0 < w)
    (hlt : w < l.length) :
    chunk_indices l w = l.take w :: chunk_indices (l.drop w) w := by
  have hn := n_chunks_step l.length w hw hlt
  have hrest : 0 < n_chunks (l.length - w) w := by
    have h1 : 0 < l.length - w := by omega
    rw [n_chunks]
    by_cases hmod : (l.length - w) % w = 0
    · have hdvd : w ∣ (l.length - w) := Nat.dvd_of_mod_eq_zero hmod
      have hle' := Nat.le_of_dvd h1 hdvd
      have hpos := Nat.div_pos hle' hw
      simp [hmod]
      omega
    · simp [hmod]
  obtain ⟨k, hk⟩ : ∃ k, n_chunks (l.length - w) w = k + 1 :=
    ⟨n_chunks (l.length - w) w - 1, by omega⟩
  rw [chunk_indices, hn, hk, show k + 1 + 1 = k + 2 from rfl, chunk_borders_succ]
  simp only [splitAtBorders, splitBordersAux, Nat.sub_zero]
  have hshift := splitBordersAux_shift w (chunk_borders w (k + 1)) 0 (l.drop w)
  rw [Nat.zero_add] at hshift
  rw [hshift, chunk_indices]
  have hdl : (l.drop w).length = l.length - w := by simp
  rw [hdl, hk, splitAtBorders]

/-- Claim C9 counterexample: the claimed window count `ceil(P / W)` fails
for the empty population: `np.split` with no borders returns one (empty)
window, so the loader yields 1 window where the claim requires
`ceil(0 / 2) = 0`. -/
theorem chunk_loader_empty_population_cex :
    (chunk_indices ([] : List (Nat × Nat)) 2).length = 1 ∧ ((0 : Nat) + 2 - 1) / 2 = 0 := by
  decide

/-- Claim C9 (amended): for every nonempty snapshot of size `P` and window
size `W ≥ 1`, the `ChunkLoader` produces exactly `ceil(P / W)` windows;
every window except the last has exactly `W` entries, the last has
`P mod W` entries (or `W` when `W` divides `P`), and concatenating the
windows in order reproduces the snapshot exactly. (For `P = 0` the loader
instead produces one empty window — the counterexample above.) -/
theorem chunk_loader_window_partition :
    ∀ (l : List (Nat × Nat)) (w : Nat), 0 < w → l ≠ [] →
      (chunk_indices l w).length = (l.length + w - 1) / w ∧
      (∀ i, i + 1 < (chunk_indices l w).length → ((chunk_indices l w).getD i []).length = w) ∧
      ((chunk_indices l w).getD ((chunk_indices l w).length - 1) []).length =
        (if l.length % w = 0 then w else l.length % w) ∧
      (chunk_indices l w).flatten = l := by
  suffices h : ∀ (p : Nat) (l : List (Nat × Nat)) (w : Nat), l.length ≤ p → 0 < w → l ≠ [] →
      (chunk_indices l w).length = (l.length + w - 1) / w ∧
      (∀ i, i + 1 < (chunk_indices l w).length → ((chunk_indices l w).getD i []).length = w) ∧
      ((chunk_indices l w).getD ((chunk_indices l w).length - 1) []).length =
        (if l.length % w = 0 then w else l.length % w) ∧
      (chunk_indices l w).flatten = l by
    exact fun l w hw hl => h l.length l w le_rfl hw hl
  intro p
  induction p with
  | zero =>
    intro l w hlen _ hl
    cases l with
    | nil => exact absurd rfl hl
    | cons a as => simp at hlen
  | succ p ih =>
    intro l w hlen hw hl
    rcases Nat.lt_or_ge w l.length with hlt | hle
    · have hstep := chunk_indices_step l w hw hlt
      have hdlen : (l.drop w).length = l.length - w := by simp
      have hdne : l.drop w ≠ [] := by
        intro hdn
        have := congrArg List.length hdn
        rw [hdlen] at this
        simp at this
        omega
      obtain ⟨ih1, ih2, ih3, ih4⟩ := ih (l.drop w) w (by omega) hw hdne
      have hcs : 0 < (chunk_indices (l.drop w) w).length :=
        List.length_pos.mpr (splitBordersAux_ne_nil _ _ _)
      refine ⟨?_, ?_, ?_, ?_⟩
      · rw [hstep]
        simp only [List.length_cons]
        rw [ih1, hdlen]
        have e : l.length + w - 1 = (l.length - w + w - 1) + w := by omega
        rw [e, Nat.add_div_right _ hw]
      · intro i hi
        rw [hstep]
        cases i with
        | zero =>
          simp only [List.getD_cons_zero]
          rw [List.length_take]
          omega
        | succ j =>
          simp only [List.getD_cons_succ]
          rw [hstep] at hi
          simp only [List.length_cons] at hi
          exact ih2 j (by omega)
      · rw [hstep]
        simp only [List.length_cons, Nat.add_sub_cancel]
        obtain ⟨m, hm⟩ : ∃ m, (chunk_indices (l.drop w) w).length = m + 1 :=
          ⟨(chunk_indices (l.drop w) w).length - 1, by omega⟩
        rw [hm, List.getD_cons_succ]
        rw [hm, Nat.add_sub_cancel] at ih3
        rw [hdlen] at ih3
        have hmod : l.length % w = (l.length - w) % w := by
          conv_lhs => rw [show l.length = (l.length - w) + w by omega]
          rw [Nat.add_mod_right]
        rw [hmod]
        exact ih3
      · rw [hstep, List.flatten_cons, ih4]
        exact List.take_append_drop w l
    · have hlp : 0 < l.length := List.length_pos.mpr hl
      have hn1 : n_chunks l.length w = 1 := n_chunks_base l.length w hw hlp hle
      have hone : chunk_indices l w = [l] := by
        rw [chunk_indices, hn1]
        rw [show chunk_borders w 1 = [] from rfl]
        rfl
      refine ⟨?_, ?_, ?_, ?_⟩
      · rw [hone]
        have h1 : (1 : Nat) * w ≤ l.length + w - 1 := by omega
        have h2 : l.length + w - 1 < ((1 : Nat) + 1) * w := by omega
        rw [Nat.div_eq_of_lt_le h1 h2]
        rfl
      · intro i hi
        rw [hone] at hi
        simp at hi
      · rw [hone]
        simp only [List.length_cons, List.length_nil, Nat.add_sub_cancel, List.getD_cons_zero]
        rcases Nat.lt_or_ge l.length w with hlt' | hge'
        · rw [Nat.mod_eq_of_lt hlt']
          rw [if_neg (by omega)]
        · have hpw : l.length = w := by omega
          rw [hpw, Nat.mod_self, if_pos rfl]
      · rw [hone]
        simp

/-- Witness for the amended C9 theorem at the snapshot
`[(3,0), (5,0), (5,1)]` with window size 2: two windows, the first of size
2, the last of size 1, joining back to the snapshot. -/
theorem chunk_loader_window_partition_witness :
    (chunk_indices [(3, 0), (5, 0), (5, 1)] 2).length =
      (([(3, 0), (5, 0), (5, 1)] : List (Nat × Nat)).length + 2 - 1) / 2 ∧
    (∀ i, i + 1 < (chunk_indices [(3, 0), (5, 0), (5, 1)] 2).length →
      ((chunk_indices [(3, 0), (5, 0), (5, 1)] 2).getD i []).length = 2) ∧
    ((chunk_indices [(3, 0), (5, 0), (5, 1)] 2).getD
        ((chunk_indices [(3, 0), (5, 0), (5, 1)] 2).length - 1) []).length =
      (if ([(3, 0), (5, 0), (5, 1)] : List (Nat × Nat)).length % 2 = 0 then 2
       else ([(3, 0), (5, 0), (5, 1)] : List (Nat × Nat)).length % 2) ∧
    (chunk_indices [(3, 0), (5, 0), (5, 1)] 2).flatten = [(3, 0), (5, 0), (5, 1)] :=
  chunk_loader_window_partition [(3, 0), (5, 0), (5, 1)] 2 (by decide) (by decide)

/-- The property loop of `_add_first_element` can only raise a record
`KeyError`, never a `DimensionMismatch`. -/
theorem first_element_loop_no_dm (r : Rec) :
    ∀ (names : List String) (leafAcc : List (String × Arr)) (grpAcc : List (String × GroupArr)),
      (first_element_loop r names leafAcc grpAcc).1 ≠ some Err.dimensionMismatch := by
  intro names
  induction names with
  | nil => intro leafAcc grpAcc; simp [first_element_loop]
  | cons k rest ih =>
    intro leafAcc grpAcc
    cases hf : r.find k with
    | none => simp [first_element_loop, hf]
    | some v => simpa [first_element_loop, hf] using ih _ _

/-- The existing-group append loop never raises `DimensionMismatch`: its
only failures are a record `KeyError`, a namespace `KeyError`, or the
backend's append-shape error. -/
theorem exist_group_loop_no_dm (r : Rec) :
    ∀ (names : List String) (g : List (String × GroupArr)),
      (exist_group_loop r names g).1 ≠ some Err.dimensionMismatch := by
  intro names
  induction names with
  | nil => intro g; simp [exist_group_loop]
  | cons k rest ih =>
    intro g
    cases hf : r.find k with
    | none => simp [exist_group_loop, hf]
    | some v =>
      cases hl : g.lookup k with
      | none => simp [exist_group_loop, hf, hl]
      | some arr =>
        by_cases hs : v.shape = arr.trail
        · simpa [exist_group_loop, hf, hl, hs] using ih _
        · simp [exist_group_loop, hf, hl, hs]

/-- The post-write bookkeeping of `add_instance` never raises
`DimensionMismatch`. -/
theorem finish_add_no_dm (s : DBState) (gname : String) (names : List String) (n : Nat) :
    (finish_add s gname names n).1 ≠ some Err.dimensionMismatch := by
  cases names with
  | nil => simp [finish_add]
  | cons k0 rest =>
    cases hg : s.data.lookup gname with
    | none => simp [finish_add, hg]
    | some g =>
      cases hk : g.lookup k0 with
      | none => simp [finish_add, hg, hk]
      | some arr => simp [finish_add, hg, hk]

/-- `_add_first_element` never raises `DimensionMismatch`. -/
theorem add_first_element_no_dm (s : DBState) (r : Rec) :
    (add_first_element s r).1 ≠ some Err.dimensionMismatch := by
  cases hsp : r.find "species" with
  | none => simp [add_first_element, hsp]
  | some sp =>
    have h := first_element_loop_no_dm r (s.property_names.getD (r.props.map (fun p => p.1))) [] []
    rcases hl : first_element_loop r (s.property_names.getD (r.props.map (fun p => p.1))) [] []
      with ⟨e, leafAdd, grpArrs⟩
    rw [hl] at h
    cases e with
    | none => simp [add_first_element, hsp, hl]
    | some e' => simpa [add_first_element, hsp, hl] using h

/-- The new-group validation loop raises `DimensionMismatch` whenever every
schema property has a template and a value but some property's value fails
`check_dimensions` against its template. -/
theorem new_group_loop_dm (leaf : List (String × Arr)) (r : Rec) (n : Nat) :
    ∀ (names : List String) (acc : List (String × GroupArr)),
      (∀ k ∈ names, (leaf.lookup k).isSome = true ∧ (r.find k).isSome = true) →
      (∃ k ∈ names, check_dimensions ((leaf.lookup k).getD defaultArr).shape
        ((r.find k).getD defaultArr).shape n = false) →
      (new_group_loop leaf r n names acc).1 = some Err.dimensionMismatch := by
  intro names
  induction names with
  | nil => intro acc _ hex; simp at hex
  | cons k rest ih =>
    intro acc hall hex
    obtain ⟨ht, hv⟩ := hall k (by simp)
    obtain ⟨tmpl, htmpl⟩ := Option.isSome_iff_exists.mp ht
    obtain ⟨v, hval⟩ := Option.isSome_iff_exists.mp hv
    by_cases hchk : check_dimensions tmpl.shape v.shape n = true
    · have hex' : ∃ k' ∈ rest, check_dimensions ((leaf.lookup k').getD defaultArr).shape
          ((r.find k').getD defaultArr).shape n = false := by
        obtain ⟨k', hk'mem, hk'⟩ := hex
        rcases List.mem_cons.mp hk'mem with hkk | hmem
        · subst hkk
          rw [htmpl, hval] at hk'
          simp only [Option.getD_some] at hk'
          rw [hchk] at hk'
          cases hk'
        · exact ⟨k', hmem, hk'⟩
      have := ih (acc ++ [(k, ⟨v.shape, v.dtype, [v]⟩)])
        (fun k' hk' => hall k' (List.mem_cons_of_mem _ hk')) hex'
      simpa [new_group_loop, htmpl, hval, hchk] using this
    · simp [new_group_loop, htmpl, hval, hchk]

/-- Claim C4 (amended): `add_instance` validates property shapes against
the frozen leaf templates only when the record's group key is new — there a
record violating the rule (every property present, some property failing
`check_dimensions`) fails with `DimensionMismatch`; a record whose group
key already exists is appended without template validation and can never
fail with `DimensionMismatch` (an incompatible shape surfaces as the
backend's append error instead). -/
theorem add_instance_validates_only_new_groups :
    (∀ (s : DBState) (r : Rec),
        (s.data.lookup (pad3 (recNAtoms r))).isSome = true →
        (add_record s r).1 ≠ some Err.dimensionMismatch) ∧
    (∀ (s : DBState) (r : Rec),
        s.db_size ≠ 0 →
        (s.data.lookup (pad3 (recNAtoms r))).isSome = false →
        (r.find "species").isSome = true →
        (∀ k ∈ s.property_names.getD [],
          (s.leaf.lookup k).isSome = true ∧ (r.find k).isSome = true) →
        (∃ k ∈ s.property_names.getD [],
          check_dimensions ((s.leaf.lookup k).getD defaultArr).shape
            ((r.find k).getD defaultArr).shape (recNAtoms r) = false) →
        (add_record s r).1 = some Err.dimensionMismatch) := by
  constructor
  · intro s r hmem
    by_cases h0 : s.db_size = 0
    · simpa [add_record, h0] using add_first_element_no_dm s r
    · cases hsp : r.find "species" with
      | none => simp [add_record, h0, hsp]
      | some sp =>
        have hn : recNAtoms r = firstDim sp.shape := by simp [recNAtoms, hsp]
        rw [hn] at hmem
        obtain ⟨g, hg⟩ := Option.isSome_iff_exists.mp hmem
        have hloop := exist_group_loop_no_dm r (s.property_names.getD []) g
        rcases hl : exist_group_loop r (s.property_names.getD []) g with ⟨e, g'⟩
        rw [hl] at hloop
        cases e with
        | none =>
          simpa [add_record, h0, hsp, hg, hl] using
            finish_add_no_dm { s with
              flags := s.flags ++ [r.globalProp.getD 0],
              data := setGroup s.data (pad3 (firstDim sp.shape)) g' }
              (pad3 (firstDim sp.shape)) (s.property_names.getD []) (firstDim sp.shape)
        | some e' => simpa [add_record, h0, hsp, hg, hl] using hloop
  · intro s r h0 hnew hsp hall hex
    obtain ⟨sp, hspv⟩ := Option.isSome_iff_exists.mp hsp
    have hn : recNAtoms r = firstDim sp.shape := by simp [recNAtoms, hspv]
    rw [hn] at hnew hex
    have hnone : s.data.lookup (pad3 (firstDim sp.shape)) = none := by
      cases hcase : s.data.lookup (pad3 (firstDim sp.shape)) with
      | none => rfl
      | some g => rw [hcase] at hnew; cases hnew
    have hloop := new_group_loop_dm s.leaf r (firstDim sp.shape)
      (s.property_names.getD []) [] hall hex
    rcases hl : new_group_loop s.leaf r (firstDim sp.shape) (s.property_names.getD []) []
      with ⟨e, acc⟩
    rw [hl] at hloop
    subst hloop
    simp [add_record, h0, hspv, hnone, hl]

/-- Witness for the amended C4 theorem: the existing-group record
`badExistGroupRec` (shape `(2, 3)` against template `(3, 3)`) is not
rejected with `DimensionMismatch`, while the same violation on a *new*
group key (`badNewGroupRec`) is. -/
theorem add_instance_validates_only_new_groups_witness :
    (add_record db1 badExistGroupRec).1 ≠ some Err.dimensionMismatch ∧
    (add_record db1 badNewGroupRec).1 = some Err.dimensionMismatch :=
  ⟨add_instance_validates_only_new_groups.1 db1 badExistGroupRec (by decide),
   add_instance_validates_only_new_groups.2 db1 badNewGroupRec (by decide) (by decide)
     (by decide) (by decide) (by decide)⟩

/-- A successful `_add_first_element` sets the record counter to 1 and
creates a one-row Global Index. -/
theorem add_first_element_count (s : DBState) (r : Rec)
    (hok : (add_first_element s r).1 = none) :
    (add_first_element s r).2.db_size = 1 ∧
    (add_first_element s r).2.indices.length = 1 := by
  cases hsp : r.find "species" with
  | none => simp [add_first_element, hsp] at hok
  | some sp =>
    rcases hl : first_element_loop r (s.property_names.getD (r.props.map (fun p => p.1))) [] []
      with ⟨e, leafAdd, grpArrs⟩
    cases e with
    | some e' => simp [add_first_element, hsp, hl] at hok
    | none => simp [add_first_element, hsp, hl]

/-- A successful `finish_add` increments the record counter and appends
exactly one Global Index row. -/
theorem finish_add_count (s : DBState) (gname : String) (names : List String) (n : Nat)
    (hok : (finish_add s gname names n).1 = none) :
    (finish_add s gname names n).2.db_size = s.db_size + 1 ∧
    (finish_add s gname names n).2.indices.length = s.indices.length + 1 := by
  cases names with
  | nil => simp [finish_add] at hok
  | cons k0 rest =>
    cases hg : s.data.lookup gname with
    | none => simp [finish_add, hg] at hok
    | some g =>
      cases hk : g.lookup k0 with
      | none => simp [finish_add, hg, hk] at hok
      | some arr => simp [finish_add, hg, hk]

/-- A successful `add_instance` on one record increments the counter by one
and keeps `len(Global Index) = db_size`. -/
theorem add_record_count (s : DBState) (r : Rec)
    (hinv : s.indices.length = s.db_size)
    (hok : (add_record s r).1 = none) :
    (add_record s r).2.db_size = s.db_size + 1 ∧
    (add_record s r).2.indices.length = (add_record s r).2.db_size := by
  by_cases h0 : s.db_size = 0
  · have heq : add_record s r = add_first_element s r := by rw [add_record, if_pos h0]
    rw [heq] at hok ⊢
    obtain ⟨h1, h2⟩ := add_first_element_count s r hok
    rw [h1, h2, h0]
    omega
  · cases hsp : r.find "species" with
    | none => simp [add_record, h0, hsp] at hok
    | some sp =>
      cases hg : List.lookup (pad3 (firstDim sp.shape)) s.data with
      | none =>
        rcases hl : new_group_loop s.leaf r (firstDim sp.shape) (s.property_names.getD []) []
          with ⟨e, acc⟩
        cases e with
        | some e' => simp [add_record, h0, hsp, hg, hl] at hok
        | none =>
          simp [add_record, h0, hsp, hg, hl] at hok ⊢
          obtain ⟨f1, f2⟩ := finish_add_count _ _ _ _ hok
          rw [f1, f2]
          constructor <;> simp [hinv]
      | some g =>
        rcases hl : exist_group_loop r (s.property_names.getD []) g with ⟨e, g'⟩
        cases e with
        | some e' => simp [add_record, h0, hsp, hg, hl] at hok
        | none =>
          simp [add_record, h0, hsp, hg, hl] at hok ⊢
          obtain ⟨f1, f2⟩ := finish_add_count _ _ _ _ hok
          rw [f1, f2]
          constructor <;> simp [hinv]

mutual
/-- Count bookkeeping of `add_instance` over a nested argument, by mutual
induction with the list case. -/
theorem add_instance_count_aux (s : DBState) (it : Item)
    (hinv : s.indices.length = s.db_size)
    (hok : (add_instance s it).1 = none) :
    (add_instance s it).2.db_size = s.db_size + countRecs it ∧
    (add_instance s it).2.indices.length = (add_instance s it).2.db_size := by
  cases it with
  | record r =>
    have h := add_record_count s r hinv (by simpa [add_instance] using hok)
    simpa [add_instance, countRecs] using h
  | items l =>
    have h := add_instance_list_count_aux s l hinv (by simpa [add_instance] using hok)
    simpa [add_instance, countRecs] using h
/-- Count bookkeeping of the `add_instance` list loop. -/
theorem add_instance_list_count_aux (s : DBState) (l : ItemList)
    (hinv : s.indices.length = s.db_size)
    (hok : (add_instance_list s l).1 = none) :
    (add_instance_list s l).2.db_size = s.db_size + countList l ∧
    (add_instance_list s l).2.indices.length = (add_instance_list s l).2.db_size := by
  cases l with
  | nil =>
    constructor
    · simp [add_instance_list, countList]
    · simpa [add_instance_list] using hinv
  | cons hd tl =>
    rcases hh : add_instance s hd with ⟨e, s'⟩
    cases e with
    | some e' =>
      rw [add_instance_list, hh] at hok
      simp at hok
    | none =>
      have h1 := add_instance_count_aux s hd hinv (by rw [hh])
      rw [hh] at h1
      have hok' : (add_instance_list s' tl).1 = none := by
        rw [add_instance_list, hh] at hok
        exact hok
      have h2 := add_instance_list_count_aux s' tl h1.2 hok'
      rw [add_instance_list, hh]
      refine ⟨?_, h2.2⟩
      rw [h2.1, h1.1, countList]
      omega
end

/-- Claim C8: after any successful sequence of `add_instance` calls
(including nested-list inputs), the total record count grows by exactly the
number of individual record dictionaries processed, and the length of the
Global Index equals the record count (given it did before, as in a fresh
store). -/
theorem add_instance_count_invariant (s : DBState) (it : Item)
    (hinv : s.indices.length = s.db_size)
    (hok : (add_instance s it).1 = none) :
    (add_instance s it).2.db_size = s.db_size + countRecs it ∧
    (add_instance s it).2.indices.length = (add_instance s it).2.db_size :=
  add_instance_count_aux s it hinv hok

/-- Witness for C8: inserting the two-record list into a fresh store gives
`db_size = 2` and a two-row Global Index. -/
theorem add_instance_count_invariant_witness :
    (add_instance emptyDB twoItems).2.db_size = emptyDB.db_size + countRecs twoItems ∧
    (add_instance emptyDB twoItems).2.indices.length = (add_instance emptyDB twoItems).2.db_size :=
  add_instance_count_invariant emptyDB twoItems rfl rfl

/-- Claim C4 counterexample: a record violating the single-axis rule that
lands in an *existing* group does not fail with `DimensionMismatch` — its
shape `(2, 3)` fails `check_dimensions` against the template `(3, 3)`, yet
the insertion fails with the backend's append error, because the
existing-group branch of `add_instance` never validates against the
templates. -/
theorem add_instance_existing_group_skips_validation_cex :
    (add_record emptyDB waterRec).1 = none ∧
    check_dimensions [3, 3] [2, 3] 3 = false ∧
    (add_record db1 badExistGroupRec).1 = some Err.backendAppend ∧
    Err.backendAppend ≠ Err.dimensionMismatch :=
  ⟨rfl, by decide, rfl, by decide⟩

/-- Claim C3 (code bug): `check_dimensions` accepts a candidate shape that
differs from the template in *two* axes, provided each differing axis
equals `n_atoms` — with template `(3, 4)`, candidate `(5, 5)` and
`n_atoms = 5` it returns `True`, although the claimed single-axis rule
rejects any shape differing in two or more axes. The `n_diff` counter of
the source is initialized and tested but never incremented. -/
theorem check_dimensions_accepts_two_axis_diff :
    check_dimensions [3, 4] [5, 5] 5 = true ∧ (3 : Nat) ≠ 5 ∧ (4 : Nat) ≠ 5 := by
  decide

/-- Claim C2 (code bug): a `DimensionMismatch` failure of `add_instance` is
not write-free. Starting from the store holding one 3-atom record, adding a
5-atom record whose `forces` shape `(4, 3)` violates the rule fails with
`DimensionMismatch`, but the record's `global_property` was appended to the
Global Flags array before validation: afterwards the flags array has 2
entries while the Global Index still has 1 — a visible partial write. -/
theorem add_instance_partial_write_on_mismatch :
    (add_record emptyDB waterRec).1 = none ∧
    db1.flags.length = 1 ∧
    db1.indices.length = 1 ∧
    (add_record db1 badNewGroupRec).1 = some Err.dimensionMismatch ∧
    (add_record db1 badNewGroupRec).2.flags.length = 2 ∧
    (add_record db1 badNewGroupRec).2.indices.length = 1 :=
  ⟨rfl, rfl, rfl, rfl, rfl, rfl⟩

/-- Claim C5 (code bug): the round trip through single-record `get_item`
fails. The 3-atom record is stored under the zero-padded group "003", but
single-record mode builds the group path from the raw integer (`"3"`), so
`get_item` on the record's assigned pair `(3, 0)` raises a `KeyError`
instead of returning the inserted values. -/
theorem get_item_single_path_lookup_fails :
    (add_record emptyDB waterRec).1 = none ∧
    (db1.data.lookup (pad3 3)).isSome = true ∧
    (db1.data.lookup (toString (3 : Nat))).isSome = false ∧
    pad3 3 = "003" ∧
    toString (3 : Nat) = "3" ∧
    get_item_single db1 (3, 0) = Except.error Err.keyError :=
  ⟨rfl, rfl, rfl, rfl, rfl, rfl⟩

/-- Claim C6 (code bug): `get_chunk_loader` does not filter by flags. With
two stored records whose flags are `[0, 1]` and the default exclusion set
`{1, 2}`, the snapshot handed to `ChunkLoader` still contains both index
rows — the source never passes `exclude_global` on to `exclude_values`, so
the flag-1 record is not excluded. -/
theorem get_chunk_loader_ignores_exclusions :
    (add_instance emptyDB twoItems).1 = none ∧
    db2.flags = [0, 1] ∧
    db2.indices = [(3, 0), (3, 1)] ∧
    get_chunk_loader_snapshot db2 (some [1, 2]) = [(3, 0), (3, 1)] :=
  ⟨rfl, rfl, rfl, rfl⟩

/-- Claim C1 (code bug): `create_initial_reduction` writes flag 2 at the
wrong positions. Over four unflagged records (Global Index
`[[3,0],[3,1],[3,2],[3,3]]`), a fraction-1/4 reduction drawing position 1
persists the correct stage "000" (`[[3,1]]`), but the flag write indexes
the flag array with the selected index *rows*, so flag 2 lands at
positions 3 and 1 — flags become `[0, 2, 0, 2]` although only position 1
was selected and the claim requires `[0, 2, 0, 0]`. -/
theorem create_initial_reduction_misindexes_flags :
    add_instance emptyDB fourItems = (none, db4) ∧
    db4.flags = [0, 0, 0, 0] ∧
    db4.indices = [(3, 0), (3, 1), (3, 2), (3, 3)] ∧
    (create_initial_reduction db4 "red" (1/4) false (some [1]) [1]).1 = none ∧
    (create_initial_reduction db4 "red" (1/4) false (some [1]) [1]).2.flags = [0, 2, 0, 2] ∧
    (create_initial_reduction db4 "red" (1/4) false (some [1]) [1]).2.reductions =
      [("red", [("000", [(3, 1)])])] := by
  have e1 : add_record emptyDB speciesOnlyRec = (none, dbS1) := rfl
  have e2 : add_record dbS1 speciesOnlyRec = (none, dbS2) := rfl
  have e3 : add_record dbS2 speciesOnlyRec = (none, dbS3) := rfl
  have e4 : add_record dbS3 speciesOnlyRec = (none, db4) := rfl
  have hreach : add_instance emptyDB fourItems = (none, db4) := by
    simp only [fourItems, add_instance, add_instance_list, e1, e2, e3, e4]
  have hsize : (pyTrunc ((1/4 : ℚ) * ((exclude_values db4.flags (some [1])).length : ℚ))).toNat = 1 := by
    have hval : exclude_values db4.flags (some [1]) = [0, 1, 2, 3] := rfl
    rw [hval]
    have hq : ((1/4 : ℚ) * (([0, 1, 2, 3] : List Nat).length : ℚ)) = 1 := by norm_num
    rw [hq]
    decide
  refine ⟨hreach, rfl, rfl, ?_, ?_, ?_⟩
  · simp only [create_initial_reduction]
    rw [hsize]
    rfl
  · simp only [create_initial_reduction]
    rw [hsize]
    rfl
  · simp only [create_initial_reduction]
    rw [hsize]
    rfl

end ALF
